import Mathlib

set_option maxHeartbeats 1000000

/-!
Shallow embedding of `baseline_model.py`: a historical-average load
forecaster.  Timestamps are modelled at hourly granularity as natural
numbers counting hours since 1970-01-01 00:00 (a Thursday); pandas
`dt.hour` is the residue mod 24 and `dt.dayofweek` (Monday = 0) is
`(t / 24 + 3) % 7`.  Load values are modelled as rationals.
-/

def hourOf (t : Nat) : Nat := t % 24

def dowOf (t : Nat) : Nat := (t / 24 + 3) % 7

/-- Day-of-week of a calendar day given as a day count since the epoch
(`pd.Timestamp(date_str).normalize().dayofweek`, Monday = 0). -/
def dayDow (day : Nat) : Nat := (day + 3) % 7

structure TrainingRecord where
  zone : String
  timestamp : Nat
  load_mw : ℚ
deriving DecidableEq

structure MeanRow where
  zone : String
  day_of_week : Nat
  hour : Nat
  load_mean : ℚ
deriving DecidableEq

structure PredRow where
  date : Nat
  zone : String
  timestamp : Nat
  pred_load_mw : ℤ
deriving DecidableEq

/-- Mean of a list of rationals (`pandas.Series.mean`). -/
def listMean (xs : List ℚ) : ℚ := xs.sum / (xs.length : ℚ)

/-- Python `round` on an exact rational: round half to even. -/
def pythonRound (q : ℚ) : ℤ :=
  if q - (⌊q⌋ : ℚ) < 1 / 2 then ⌊q⌋
  else if 1 / 2 < q - (⌊q⌋ : ℚ) then ⌊q⌋ + 1
  else if 2 ∣ ⌊q⌋ then ⌊q⌋ else ⌊q⌋ + 1

/-- First model row matching `(zone, day_of_week, hour)` exactly, as in
`means[(means["zone"]==z)&(means["day_of_week"]==dow)&(means["hour"]==hr)]`
followed by `.values[0]`. -/
def findExact (m : List MeanRow) (z : String) (d hr : Nat) : Option MeanRow :=
  m.find? (fun r => r.zone == z && r.day_of_week == d && r.hour == hr)

/-- Model rows contributing to the `(zone, hour)` fallback group `z_h`. -/
def zoneHourGroup (m : List MeanRow) (z : String) (hr : Nat) : List MeanRow :=
  m.filter (fun r => r.zone == z && r.hour == hr)

/-- Model rows contributing to the global `hour` fallback group `h`. -/
def hourGroup (m : List MeanRow) (hr : Nat) : List MeanRow :=
  m.filter (fun r => r.hour == hr)

/-- The three-tier lookup in the body of `predict_day`'s loop: exact
`(zone, dow, hour)` row, else mean over the `(zone, hour)` group, else
mean over the `hour` group; `none` models the `IndexError` raised by
`h[h["hour"]==hr]["fallback_hour"].values[0]` on an empty frame. -/
def predictSlot (m : List MeanRow) (d : Nat) (z : String) (hr : Nat) : Option ℤ :=
  match findExact m z d hr with
  | some r => some (pythonRound r.load_mean)
  | none =>
    if zoneHourGroup m z hr ≠ [] then
      some (pythonRound (listMean ((zoneHourGroup m z hr).map (fun r => r.load_mean))))
    else if hourGroup m hr ≠ [] then
      some (pythonRound (listMean ((hourGroup m hr).map (fun r => r.load_mean))))
    else none

/-- The row-building loop of `predict_day` over a list of (zone, hour)
slots; any slot with no value at any tier aborts the whole call. -/
def buildRows (m : List MeanRow) (day d : Nat) : List (String × Nat) → Option (List PredRow)
  | [] => some []
  | p :: rest =>
    match predictSlot m d p.1 p.2 with
    | none => none
    | some v =>
      match buildRows m day d rest with
      | none => none
      | some rows => some (⟨day, p.1, day * 24 + p.2, v⟩ :: rows)

def insertBy {α : Type} (le : α → α → Bool) (a : α) : List α → List α
  | [] => [a]
  | b :: bs => if le a b then a :: b :: bs else b :: insertBy le a bs

def sortBy {α : Type} (le : α → α → Bool) : List α → List α
  | [] => []
  | a :: as => insertBy le a (sortBy le as)

def dedupByAux {α : Type} (eq : α → α → Bool) (seen : List α) : List α → List α
  | [] => []
  | a :: as =>
    if seen.any (fun b => eq b a) then dedupByAux eq seen as
    else a :: dedupByAux eq (a :: seen) as

/-- Keep-first deduplication (`drop_duplicates`, `Series.unique`). -/
def dedupBy {α : Type} (eq : α → α → Bool) (l : List α) : List α := dedupByAux eq [] l

def recEq (a b : TrainingRecord) : Bool := a.zone == b.zone && a.timestamp == b.timestamp

def recLe (a b : TrainingRecord) : Bool :=
  decide (a.zone < b.zone) || (a.zone == b.zone && decide (a.timestamp ≤ b.timestamp))

/-- `drop_duplicates(subset=["zone","timestamp"])` (keep the first copy). -/
def dedupRecords (rs : List TrainingRecord) : List TrainingRecord := dedupBy recEq rs

/-- `sort_values(["zone","timestamp"])`. -/
def sortRecords (rs : List TrainingRecord) : List TrainingRecord := sortBy recLe rs

/-- The grouping key added by `train_hist_avg`: zone, day-of-week, hour. -/
def recKey (r : TrainingRecord) : String × Nat × Nat :=
  (r.zone, dowOf r.timestamp, hourOf r.timestamp)

def keyLe (a b : String × Nat × Nat) : Bool :=
  decide (a.1 < b.1) ||
    (a.1 == b.1 && (decide (a.2.1 < b.2.1) || (a.2.1 == b.2.1 && decide (a.2.2 ≤ b.2.2))))

def keyEq (a b : String × Nat × Nat) : Bool := decide (a = b)

/-- Group keys of a record list, in sorted first-occurrence-free order, as
`groupby` enumerates them. -/
def groupKeys (rs : List TrainingRecord) : List (String × Nat × Nat) :=
  sortBy keyLe (dedupBy keyEq (rs.map recKey))

/-- `df.groupby(["zone","day_of_week","hour"], as_index=False)["load_mw"].mean()`:
one output row per key present in `rs`, holding the group's mean load. -/
def train_hist_avg (rs : List TrainingRecord) : List MeanRow :=
  (groupKeys rs).map (fun k =>
    ⟨k.1, k.2.1, k.2.2,
      listMean ((rs.filter (fun r => keyEq (recKey r) k)).map (fun r => r.load_mw))⟩)

/-- The training pipeline applied to an in-memory record collection: dedup
by (zone, timestamp), sort, then group means (the frame handling of
`load_pjm_glob` followed by `train_hist_avg`). -/
def load_and_train (rs : List TrainingRecord) : List MeanRow :=
  train_hist_avg (sortRecords (dedupRecords rs))

def strLe (a b : String) : Bool := decide (a < b) || a == b

/-- `sorted(means["zone"].unique().tolist())`. -/
def defaultZones (m : List MeanRow) : List String :=
  sortBy strLe (dedupBy (fun a b => a == b) (m.map (fun r => r.zone)))

/-- `predict_day`: one row per (zone, hour) in zone-major, hour-minor
order; `none` models the uncaught `IndexError` when some slot has no
value at any fallback tier. -/
def predict_day (m : List MeanRow) (day : Nat) (zones : Option (List String)) :
    Option (List PredRow) :=
  buildRows m day (dayDow day)
    ((zones.getD (defaultZones m)).flatMap (fun z => (List.range 24).map (fun hr => (z, hr))))

def timestampAliases : List String :=
  ["timestamp", "datetime", "datetime_beginning_ept", "datetime_beginning_utc",
   "datetime_beginning_gmt", "datetime_beginning"]

def zoneAliases : List String := ["zone", "zone_name", "area", "area_name"]

def loadAliases : List String := ["mw", "load_mw", "hrl_load", "load", "value"]

/-- First alias present among the (lower-cased) column names. -/
def findCol (cols : List String) (cands : List String) : Option String :=
  cands.find? (fun c => cols.contains c)

def strLower (s : String) : String := ⟨s.data.map Char.toLower⟩

/-- Characters stripped from both ends by Python `str.strip()`. -/
def stripChars (l : List Char) : List Char :=
  ((l.dropWhile Char.isWhitespace).reverse.dropWhile Char.isWhitespace).reverse

/-- Python `str(z).strip().upper()` applied to zone values in `read_std_pjm`. -/
def normZone (s : String) : String := ⟨(stripChars s.data).map Char.toUpper⟩

/-- A CSV input file: its original-case column names, plus its data rows
already parsed to `(zone, timestamp, load)` triples (timestamp coercion
and NA-dropping of `read_std_pjm` are not touched by any claim). -/
structure RawFile where
  cols : List String
  recs : List TrainingRecord

/-- Column sniffing and zone normalisation of `read_std_pjm`: lower-case
the header, require a timestamp, zone and load column under the accepted
aliases (checked in that order), and strip/upper-case every zone value. -/
def read_std_pjm (f : RawFile) : Except String (List TrainingRecord) :=
  match findCol (f.cols.map strLower) timestampAliases with
  | none => .error "No timestamp column"
  | some _ =>
    match findCol (f.cols.map strLower) zoneAliases with
    | none => .error "No zone column"
    | some _ =>
      match findCol (f.cols.map strLower) loadAliases with
      | none => .error "No load column"
      | some _ => .ok (f.recs.map (fun r => ⟨normZone r.zone, r.timestamp, r.load_mw⟩))

def exMapM {α ε β : Type} (g : α → Except ε β) : List α → Except ε (List β)
  | [] => .ok []
  | a :: as =>
    match g a with
    | .error e => .error e
    | .ok b =>
      match exMapM g as with
      | .error e => .error e
      | .ok bs => .ok (b :: bs)

/-- `load_pjm_glob`: fail on an empty glob match; read every file (the
first bad file aborts); concatenate; dedup by (zone, timestamp); sort. -/
def load_pjm_glob (files : List RawFile) : Except String (List TrainingRecord) :=
  if files.isEmpty then .error "No PJM files for pattern"
  else
    match exMapM read_std_pjm files with
    | .error e => .error e
    | .ok frames => .ok (sortRecords (dedupRecords frames.flatten))

/-- The `train` CLI path: `load_pjm_glob` then `train_hist_avg`; a model
is produced (written) only on the `.ok` branch. -/
def train_run (files : List RawFile) : Except String (List MeanRow) :=
  match load_pjm_glob files with
  | .error e => .error e
  | .ok df => .ok (train_hist_avg df)

/-- The model of the spec's worked example: a single row
(zone MZ, Monday, hour 14) with mean load 5000.4. -/
def exampleModel : List MeanRow := [⟨"MZ", 0, 14, 25002 / 5⟩]

/-! Helper lemmas. -/

lemma listMean_singleton (x : ℚ) : listMean [x] = x := by
  simp [listMean]

lemma listMean_perm {l₁ l₂ : List ℚ} (h : l₁.Perm l₂) : listMean l₁ = listMean l₂ := by
  simp [listMean, h.sum_eq, h.length_eq]

lemma insertBy_perm {α : Type} (le : α → α → Bool) (a : α) (l : List α) :
    (insertBy le a l).Perm (a :: l) := by
  induction l with
  | nil => simp [insertBy]
  | cons b bs ih =>
    unfold insertBy
    by_cases h : le a b = true
    · simp [h]
    · simp only [h, if_false]
      exact (ih.cons b).trans (List.Perm.swap a b bs)

lemma sortBy_perm {α : Type} (le : α → α → Bool) (l : List α) : (sortBy le l).Perm l := by
  induction l with
  | nil => exact List.Perm.refl _
  | cons a as ih => exact (insertBy_perm le a (sortBy le as)).trans (ih.cons a)

lemma dedupByAux_subset {α : Type} (eq : α → α → Bool) :
    ∀ (l seen : List α) (x : α), x ∈ dedupByAux eq seen l → x ∈ l := by
  intro l
  induction l with
  | nil => intro seen x hx; simp [dedupByAux] at hx
  | cons a as ih =>
    intro seen x hx
    unfold dedupByAux at hx
    cases h : (seen.any fun b => eq b a) with
    | true =>
      rw [h, if_pos rfl] at hx
      exact List.mem_cons_of_mem a (ih seen x hx)
    | false =>
      rw [h] at hx
      simp only [Bool.false_eq_true, if_false, List.mem_cons] at hx
      rcases hx with rfl | hx
      · exact List.mem_cons_self x as
      · exact List.mem_cons_of_mem a (ih (a :: seen) x hx)

lemma dedupBy_subset {α : Type} (eq : α → α → Bool) (l : List α) (x : α)
    (hx : x ∈ dedupBy eq l) : x ∈ l :=
  dedupByAux_subset eq l [] x hx

lemma dedupByAux_not_mem_seen {α : Type} (eq : α → α → Bool)
    (heq : ∀ a b, eq a b = true ↔ a = b) :
    ∀ (l seen : List α) (x : α), x ∈ dedupByAux eq seen l → x ∉ seen := by
  intro l
  induction l with
  | nil => intro seen x hx; simp [dedupByAux] at hx
  | cons a as ih =>
    intro seen x hx
    unfold dedupByAux at hx
    cases h : (seen.any fun b => eq b a) with
    | true =>
      rw [h, if_pos rfl] at hx
      exact ih seen x hx
    | false =>
      rw [h] at hx
      simp only [Bool.false_eq_true, if_false, List.mem_cons] at hx
      rcases hx with rfl | hx
      · intro hin
        have : (seen.any fun b => eq b x) = true :=
          List.any_eq_true.mpr ⟨x, hin, (heq x x).mpr rfl⟩
        rw [h] at this
        exact Bool.false_ne_true this
      · intro hin
        exact ih (a :: seen) x hx (List.mem_cons_of_mem a hin)

lemma dedupByAux_nodup {α : Type} (eq : α → α → Bool)
    (heq : ∀ a b, eq a b = true ↔ a = b) :
    ∀ (l seen : List α), (dedupByAux eq seen l).Nodup := by
  intro l
  induction l with
  | nil => intro seen; simp [dedupByAux]
  | cons a as ih =>
    intro seen
    unfold dedupByAux
    cases h : (seen.any fun b => eq b a) with
    | true =>
      rw [if_pos rfl]
      exact ih seen
    | false =>
      simp only [Bool.false_eq_true, if_false, List.nodup_cons]
      refine ⟨fun hmem => ?_, ih (a :: seen)⟩
      exact dedupByAux_not_mem_seen eq heq as (a :: seen) a hmem (List.mem_cons_self a seen)

lemma dedupBy_nodup {α : Type} (eq : α → α → Bool)
    (heq : ∀ a b, eq a b = true ↔ a = b) (l : List α) : (dedupBy eq l).Nodup :=
  dedupByAux_nodup eq heq l []

lemma dedupByAux_mem {α : Type} (eq : α → α → Bool)
    (heq : ∀ a b, eq a b = true ↔ a = b) :
    ∀ (l seen : List α) (x : α), x ∈ l → x ∉ seen → x ∈ dedupByAux eq seen l := by
  intro l
  induction l with
  | nil => intro seen x hx; simp at hx
  | cons a as ih =>
    intro seen x hx hseen
    unfold dedupByAux
    cases h : (seen.any fun b => eq b a) with
    | true =>
      rw [if_pos rfl]
      rcases List.mem_cons.mp hx with rfl | hx'
      · rcases List.any_eq_true.mp h with ⟨b, hb, hba⟩
        exact absurd (((heq b x).mp hba) ▸ hb) hseen
      · exact ih seen x hx' hseen
    | false =>
      simp only [Bool.false_eq_true, if_false, List.mem_cons]
      rcases List.mem_cons.mp hx with rfl | hx'
      · exact Or.inl rfl
      · by_cases hxa : x = a
        · exact Or.inl hxa
        · refine Or.inr (ih (a :: seen) x hx' ?_)
          intro hin
          rcases List.mem_cons.mp hin with h1 | h1
          · exact hxa h1
          · exact hseen h1

lemma dedupBy_mem {α : Type} (eq : α → α → Bool)
    (heq : ∀ a b, eq a b = true ↔ a = b) (l : List α) (x : α) (hx : x ∈ l) :
    x ∈ dedupBy eq l :=
  dedupByAux_mem eq heq l [] x hx (List.not_mem_nil x)

lemma predictSlot_ne_none (m : List MeanRow) (d : Nat) (z : String) (hr : Nat)
    (h : hourGroup m hr ≠ []) : predictSlot m d z hr ≠ none := by
  unfold predictSlot
  cases hfe : findExact m z d hr with
  | some r => simp
  | none =>
    by_cases hzh : zoneHourGroup m z hr ≠ []
    · simp [hzh]
    · simp [hzh, h]

lemma buildRows_total (m : List MeanRow) (day d : Nat) :
    ∀ pairs : List (String × Nat),
      (∀ p ∈ pairs, predictSlot m d p.1 p.2 ≠ none) →
      ∃ rows, buildRows m day d pairs = some rows ∧
        rows.map (fun r => (r.zone, r.timestamp)) =
          pairs.map (fun p => (p.1, day * 24 + p.2)) := by
  intro pairs
  induction pairs with
  | nil => intro _; exact ⟨[], rfl, rfl⟩
  | cons p ps ih =>
    intro hall
    have hp := hall p (List.mem_cons_self p ps)
    rcases Option.ne_none_iff_exists'.mp hp with ⟨v, hv⟩
    rcases ih (fun q hq => hall q (List.mem_cons_of_mem p hq)) with ⟨rows, hrows, hmap⟩
    refine ⟨⟨day, p.1, day * 24 + p.2, v⟩ :: rows, ?_, ?_⟩
    · unfold buildRows
      rw [hv, hrows]
    · simp [hmap]

lemma buildRows_mem (m : List MeanRow) (day d : Nat) :
    ∀ (pairs : List (String × Nat)) (rows : List PredRow),
      buildRows m day d pairs = some rows → ∀ row ∈ rows,
        ∃ p ∈ pairs, row.zone = p.1 ∧ row.timestamp = day * 24 + p.2 ∧
          predictSlot m d p.1 p.2 = some row.pred_load_mw := by
  intro pairs
  induction pairs with
  | nil =>
    intro rows h row hrow
    unfold buildRows at h
    cases h
    simp at hrow
  | cons p ps ih =>
    intro rows h row hrow
    unfold buildRows at h
    cases hv : predictSlot m d p.1 p.2 with
    | none => rw [hv] at h; cases h
    | some v =>
      rw [hv] at h
      cases hb : buildRows m day d ps with
      | none => rw [hb] at h; cases h
      | some rows' =>
        rw [hb] at h
        cases h
        rcases List.mem_cons.mp hrow with rfl | hrow'
        · exact ⟨p, List.mem_cons_self p ps, rfl, rfl, hv⟩
        · rcases ih rows' hb row hrow' with ⟨q, hq, h1, h2, h3⟩
          exact ⟨q, List.mem_cons_of_mem p hq, h1, h2, h3⟩

lemma exMapM_error {α ε β : Type} (g : α → Except ε β) :
    ∀ l : List α, (∃ a ∈ l, ∀ v, g a ≠ .ok v) → ∃ e, exMapM g l = .error e := by
  intro l
  induction l with
  | nil => intro h; simp at h
  | cons a as ih =>
    intro h
    cases hg : g a with
    | error e => exact ⟨e, by unfold exMapM; rw [hg]⟩
    | ok b =>
      rcases h with ⟨x, hx, hbad⟩
      rcases List.mem_cons.mp hx with rfl | hx'
      · exact absurd hg (hbad b)
      · rcases ih ⟨x, hx', hbad⟩ with ⟨e, he⟩
        exact ⟨e, by unfold exMapM; rw [hg, he]⟩

lemma exMapM_ok_mem {α ε β : Type} (g : α → Except ε β) :
    ∀ (l : List α) (out : List β), exMapM g l = .ok out →
      ∀ fr ∈ out, ∃ a ∈ l, g a = .ok fr := by
  intro l
  induction l with
  | nil =>
    intro out h fr hfr
    unfold exMapM at h
    cases h
    simp at hfr
  | cons a as ih =>
    intro out h fr hfr
    unfold exMapM at h
    cases hg : g a with
    | error e => rw [hg] at h; cases h
    | ok b =>
      rw [hg] at h
      cases hrest : exMapM g as with
      | error e => rw [hrest] at h; cases h
      | ok bs =>
        rw [hrest] at h
        cases h
        rcases List.mem_cons.mp hfr with rfl | hfr'
        · exact ⟨a, List.mem_cons_self a as, hg⟩
        · rcases ih bs hrest fr hfr' with ⟨x, hx, hgx⟩
          exact ⟨x, List.mem_cons_of_mem a hx, hgx⟩

lemma filter_of_map {α β : Type} (f : α → β) (p : β → Bool) :
    ∀ l : List α, (l.map f).filter p = (l.filter (fun a => p (f a))).map f := by
  intro l
  induction l with
  | nil => rfl
  | cons a as ih =>
    simp only [List.map_cons, List.filter_cons]
    cases h : p (f a) <;> simp [h, ih]

lemma nodup_filter_key {α : Type} [DecidableEq α] :
    ∀ (l : List α), l.Nodup → ∀ a : α,
      l.filter (fun x => decide (x = a)) = if a ∈ l then [a] else [] := by
  intro l
  induction l with
  | nil => intro _ a; simp
  | cons b bs ih =>
    intro hnd a
    rcases List.nodup_cons.mp hnd with ⟨hb, hbs⟩
    rw [List.filter_cons]
    by_cases hba : b = a
    · subst hba
      rw [if_pos (by simp), ih hbs b, if_neg hb, if_pos (List.mem_cons_self b bs)]
    · rw [if_neg (by simp [hba]), ih hbs a]
      by_cases ha : a ∈ bs
      · rw [if_pos ha, if_pos (List.mem_cons_of_mem b ha)]
      · have hnotin : a ∉ b :: bs := by
          simp only [List.mem_cons]
          rintro (h | h)
          · exact hba h.symm
          · exact ha h
        rw [if_neg ha, if_neg hnotin]

lemma pythonRound_val : pythonRound ((25002 : ℚ) / 5) = 5000 := by
  have hf : ⌊(25002 : ℚ) / 5⌋ = 5000 := by
    rw [Int.floor_eq_iff]
    norm_num
  unfold pythonRound
  rw [hf]
  norm_num

lemma predict_day_row_value (m : List MeanRow) (day : Nat) (zs : List String)
    (rows : List PredRow) (z : String) (hr : Nat)
    (hpd : predict_day m day (some zs) = some rows)
    (row : PredRow) (hrow : row ∈ rows) (hz : row.zone = z)
    (ht : row.timestamp = day * 24 + hr) :
    predictSlot m (dayDow day) z hr = some row.pred_load_mw := by
  have hpd' : buildRows m day (dayDow day)
      (zs.flatMap fun z0 => (List.range 24).map fun h0 => (z0, h0)) = some rows := hpd
  rcases buildRows_mem m day (dayDow day) _ rows hpd' row hrow with ⟨p, hp, hz', ht', hs⟩
  rcases List.mem_flatMap.mp hp with ⟨z0, _, hpz⟩
  rcases List.mem_map.mp hpz with ⟨h0, _, rfl⟩
  simp only at hz' ht' hs
  have hh : h0 = hr := by omega
  have hzz : z0 = z := by rw [← hz, hz']
  rw [← hzz, ← hh]
  exact hs

lemma read_std_pjm_ok (f : RawFile) (out : List TrainingRecord)
    (h : read_std_pjm f = .ok out) :
    out = f.recs.map (fun rec => ⟨normZone rec.zone, rec.timestamp, rec.load_mw⟩) := by
  unfold read_std_pjm at h
  cases h1 : findCol (f.cols.map strLower) timestampAliases with
  | none => rw [h1] at h; cases h
  | some c1 =>
    rw [h1] at h
    cases h2 : findCol (f.cols.map strLower) zoneAliases with
    | none => rw [h2] at h; cases h
    | some c2 =>
      rw [h2] at h
      cases h3 : findCol (f.cols.map strLower) loadAliases with
      | none => rw [h3] at h; cases h
      | some c3 =>
        rw [h3] at h
        exact (Except.ok.inj h).symm

lemma load_pjm_glob_ok (files : List RawFile) (df : List TrainingRecord)
    (h : load_pjm_glob files = .ok df) :
    ∃ frames, exMapM read_std_pjm files = .ok frames
      ∧ df = sortRecords (dedupRecords frames.flatten) := by
  unfold load_pjm_glob at h
  cases he : files.isEmpty with
  | true => rw [he] at h; simp at h
  | false =>
    rw [he] at h
    simp only [Bool.false_eq_true, if_false] at h
    cases hex : exMapM read_std_pjm files with
    | error e => rw [hex] at h; cases h
    | ok frames =>
      rw [hex] at h
      exact ⟨frames, rfl, (Except.ok.inj h).symm⟩

lemma train_hist_avg_zone (rs : List TrainingRecord) (row : MeanRow)
    (h : row ∈ train_hist_avg rs) : ∃ r ∈ rs, r.zone = row.zone := by
  unfold train_hist_avg at h
  rcases List.mem_map.mp h with ⟨k, hk, hmk⟩
  have hk2 : k ∈ dedupBy keyEq (rs.map recKey) :=
    (sortBy_perm keyLe _).mem_iff.mp hk
  have hk3 : k ∈ rs.map recKey := dedupBy_subset keyEq _ k hk2
  rcases List.mem_map.mp hk3 with ⟨r, hr, hrk⟩
  refine ⟨r, hr, ?_⟩
  rw [← hmk, ← hrk]
  rfl

lemma train_run_zone_origin (files : List RawFile) (m : List MeanRow)
    (hm : train_run files = .ok m) :
    ∀ row ∈ m, ∃ f ∈ files, ∃ rec ∈ f.recs, row.zone = normZone rec.zone := by
  intro row hrow
  unfold train_run at hm
  cases hl : load_pjm_glob files with
  | error e => rw [hl] at hm; cases hm
  | ok df =>
    rw [hl] at hm
    have hdf : train_hist_avg df = m := Except.ok.inj hm
    rcases load_pjm_glob_ok files df hl with ⟨frames, hex, hdf2⟩
    rw [← hdf] at hrow
    rcases train_hist_avg_zone df row hrow with ⟨r, hr, hrz⟩
    have hr2 : r ∈ dedupRecords frames.flatten := by
      rw [hdf2] at hr
      exact (sortBy_perm recLe _).mem_iff.mp hr
    have hr3 : r ∈ frames.flatten := dedupBy_subset recEq _ r hr2
    rcases List.mem_flatten.mp hr3 with ⟨fr, hfr, hrfr⟩
    rcases exMapM_ok_mem read_std_pjm files frames hex fr hfr with ⟨f, hf, hgf⟩
    rw [read_std_pjm_ok f fr hgf] at hrfr
    rcases List.mem_map.mp hrfr with ⟨rec, hrec, hreceq⟩
    refine ⟨f, hf, rec, hrec, ?_⟩
    rw [← hrz, ← hreceq]

lemma key_pred_eq (z : String) (d h : Nat) (k : String × Nat × Nat) :
    ((k.1 == z && k.2.1 == d) && k.2.2 == h) = keyEq k (z, d, h) := by
  rcases k with ⟨kz, kd, kh⟩
  rw [Bool.eq_iff_iff]
  simp [keyEq, Prod.ext_iff, and_assoc]

/-! Claim theorems. -/

/-- C2: if the model contains an entry for (zone, day_of_week(date), hour),
the per-slot lookup returns exactly that entry's `load_mean` rounded to an
integer — no fallback tier is consulted and no blending occurs — and every
row `predict_day` emits for that slot carries exactly that value. -/
theorem exact_tier_precedence (m : List MeanRow) (day : Nat) (z : String) (hr : Nat)
    (r : MeanRow) (hfind : findExact m z (dayDow day) hr = some r) :
    predictSlot m (dayDow day) z hr = some (pythonRound r.load_mean)
    ∧ ∀ (zs : List String) (rows : List PredRow), predict_day m day (some zs) = some rows →
        ∀ row ∈ rows, row.zone = z → row.timestamp = day * 24 + hr →
          row.pred_load_mw = pythonRound r.load_mean := by
  have h1 : predictSlot m (dayDow day) z hr = some (pythonRound r.load_mean) := by
    unfold predictSlot
    rw [hfind]
  refine ⟨h1, ?_⟩
  intro zs rows hpd row hrow hz ht
  have h2 := predict_day_row_value m day zs rows z hr hpd row hrow hz ht
  rw [h1] at h2
  exact (Option.some.inj h2).symm

/-- C2 witness: in the spec's example model, the Monday hour-14 slot for
zone MZ has an exact entry, and the lookup returns it rounded. -/
theorem exact_tier_precedence_witness :
    findExact exampleModel "MZ" (dayDow 4) 14 = some ⟨"MZ", 0, 14, 25002 / 5⟩
    ∧ predictSlot exampleModel (dayDow 4) "MZ" 14
        = some (pythonRound ((25002 : ℚ) / 5)) :=
  ⟨rfl, (exact_tier_precedence exampleModel 4 "MZ" 14 ⟨"MZ", 0, 14, 25002 / 5⟩ rfl).1⟩

/-- C3: if the exact (zone, day_of_week(date), hour) entry is absent but the
model has rows for (zone, hour) under some day-of-week, the slot prediction
is the arithmetic mean of all `load_mean` entries with that (zone, hour)
across all days-of-week, rounded to an integer. -/
theorem zone_hour_fallback (m : List MeanRow) (day : Nat) (z : String) (hr : Nat)
    (hfind : findExact m z (dayDow day) hr = none)
    (hzh : zoneHourGroup m z hr ≠ []) :
    predictSlot m (dayDow day) z hr
      = some (pythonRound (listMean ((zoneHourGroup m z hr).map (fun r => r.load_mean)))) := by
  unfold predictSlot
  rw [hfind, if_pos hzh]

/-- C3 witness: the spec's example model on a Tuesday at hour 14 has no
exact entry but a non-empty (MZ, 14) group; the lookup returns its mean. -/
theorem zone_hour_fallback_witness :
    findExact exampleModel "MZ" (dayDow 5) 14 = none
    ∧ zoneHourGroup exampleModel "MZ" 14 ≠ []
    ∧ predictSlot exampleModel (dayDow 5) "MZ" 14
        = some (pythonRound (listMean
            ((zoneHourGroup exampleModel "MZ" 14).map (fun r => r.load_mean)))) :=
  ⟨rfl, by decide, zone_hour_fallback exampleModel 5 "MZ" 14 rfl (by decide)⟩

/-- C4: if a requested zone has no model entry at the given hour under any
day-of-week, the slot prediction is the arithmetic mean of all `load_mean`
entries for that hour across all zones and days, rounded to an integer. -/
theorem global_hour_fallback (m : List MeanRow) (day : Nat) (z : String) (hr : Nat)
    (hfind : findExact m z (dayDow day) hr = none)
    (hzh : zoneHourGroup m z hr = [])
    (hh : hourGroup m hr ≠ []) :
    predictSlot m (dayDow day) z hr
      = some (pythonRound (listMean ((hourGroup m hr).map (fun r => r.load_mean)))) := by
  unfold predictSlot
  rw [hfind, if_neg (fun hc => hc hzh), if_pos hh]

/-- C4 witness: zone XX never occurs in the spec's example model, so the
hour-14 slot for XX is served by the global hour mean. -/
theorem global_hour_fallback_witness :
    findExact exampleModel "XX" (dayDow 4) 14 = none
    ∧ zoneHourGroup exampleModel "XX" 14 = []
    ∧ hourGroup exampleModel 14 ≠ []
    ∧ predictSlot exampleModel (dayDow 4) "XX" 14
        = some (pythonRound (listMean
            ((hourGroup exampleModel 14).map (fun r => r.load_mean)))) :=
  ⟨rfl, rfl, by decide, global_hour_fallback exampleModel 4 "XX" 14 rfl rfl (by decide)⟩

/-- C7: `predict_day` is deterministic — the same model contents, target
date and zone argument always produce the same rows in the same order, and
the default zone argument is exactly the sorted deduplicated model zones. -/
theorem predict_day_deterministic (m : List MeanRow) (day : Nat)
    (zo : Option (List String)) :
    predict_day m day zo = predict_day m day zo
    ∧ predict_day m day none = predict_day m day (some (defaultZones m)) :=
  ⟨rfl, rfl⟩

/-- C1 (amended): the claim's precondition "model non-empty" is not enough
for totality (see the counterexample); under the stronger precondition that
every hour 0–23 has at least one model entry (for some zone and
day-of-week), `predict_day` succeeds for every target date and zone
argument (including the default of all model zones) and emits exactly one
row per (zone, hour-of-day) slot, each with a numeric `pred_load_mw`. -/
theorem predict_day_requires_hour_coverage (m : List MeanRow) (day : Nat)
    (zo : Option (List String))
    (hcov : ∀ hr, hr < 24 → hourGroup m hr ≠ []) :
    ∃ rows, predict_day m day zo = some rows ∧
      rows.map (fun r => (r.zone, r.timestamp)) =
        (zo.getD (defaultZones m)).flatMap
          (fun z => (List.range 24).map (fun hr => (z, day * 24 + hr))) := by
  have hall : ∀ p ∈ (zo.getD (defaultZones m)).flatMap
      (fun z => (List.range 24).map fun hr => (z, hr)),
      predictSlot m (dayDow day) p.1 p.2 ≠ none := by
    intro p hp
    rcases List.mem_flatMap.mp hp with ⟨z0, _, hpz⟩
    rcases List.mem_map.mp hpz with ⟨h0, hh0, rfl⟩
    exact predictSlot_ne_none m (dayDow day) z0 h0 (hcov h0 (List.mem_range.mp hh0))
  rcases buildRows_total m day (dayDow day) _ hall with ⟨rows, h1, h2⟩
  refine ⟨rows, h1, ?_⟩
  rw [h2, List.map_flatMap]
  simp [List.map_map, Function.comp_def]

/-- C1 counterexample: a non-empty model (the spec's own worked example,
whose only entry is at hour 14) on which `predict_day` raises instead of
producing a row per slot: the global-hour lookup fails at hour 0. -/
theorem predict_day_nonempty_cex :
    exampleModel ≠ [] ∧ predict_day exampleModel 4 none = none :=
  ⟨by decide, rfl⟩

/-- C1 witness: a model covering all 24 hours satisfies the coverage
precondition, and prediction succeeds with one row per slot. -/
theorem predict_day_requires_hour_coverage_witness :
    (∀ hr, hr < 24 →
      hourGroup ((List.range 24).map (fun h => ⟨"A", 0, h, 1⟩)) hr ≠ []) ∧
    ∃ rows,
      predict_day ((List.range 24).map (fun h => ⟨"A", 0, h, 1⟩)) 0 (some ["A"])
        = some rows ∧
      rows.map (fun r => (r.zone, r.timestamp)) =
        ((some ["A"]).getD
            (defaultZones ((List.range 24).map (fun h => ⟨"A", 0, h, 1⟩)))).flatMap
          (fun z => (List.range 24).map (fun hr => (z, 0 * 24 + hr))) :=
  ⟨by decide,
    predict_day_requires_hour_coverage ((List.range 24).map (fun h => ⟨"A", 0, h, 1⟩))
      0 (some ["A"]) (by decide)⟩

/-- C8 (amended): in the spec's example model the per-slot lookups behave
as the spec describes — Monday hour 14 hits the exact tier and Tuesday
hour 14 the zone-hour fallback, both yielding 5000 — but the surrounding
`predict_day` calls themselves fail, because every hour other than 14 has
an empty global fallback (see the counterexample). -/
theorem example_model_slot_values :
    dayDow 4 = 0
    ∧ predictSlot exampleModel (dayDow 4) "MZ" 14 = some 5000
    ∧ findExact exampleModel "MZ" (dayDow 5) 14 = none
    ∧ predictSlot exampleModel (dayDow 5) "MZ" 14 = some 5000 := by
  refine ⟨rfl, ?_, rfl, ?_⟩
  · rw [show predictSlot exampleModel (dayDow 4) "MZ" 14
        = some (pythonRound ((25002 : ℚ) / 5)) from rfl, pythonRound_val]
  · rw [show predictSlot exampleModel (dayDow 5) "MZ" 14
        = some (pythonRound (listMean [(25002 : ℚ) / 5])) from rfl,
      listMean_singleton, pythonRound_val]

/-- C8 counterexample: on the example model, `predict_day` for the Monday
and for the Tuesday both fail (the hour-0 slot has no fallback value), so
neither call yields the claimed hour-14 row. -/
theorem example_model_predict_day_cex :
    predict_day exampleModel 4 (some ["MZ"]) = none
    ∧ predict_day exampleModel 5 (some ["MZ"]) = none :=
  ⟨rfl, rfl⟩

/-- C6 (amended): training on a single record and looking up the slot
(zone, hour of the record) for a date with the record's day-of-week
returns that record's load rounded to an integer; the full `predict_day`
call on such a model fails instead (see the counterexample), since the
other 23 hours have no fallback value. -/
theorem round_trip_slot (r : TrainingRecord) (day : Nat)
    (hdow : dayDow day = dowOf r.timestamp) :
    predictSlot (load_and_train [r]) (dayDow day) r.zone (hourOf r.timestamp)
      = some (pythonRound r.load_mw) := by
  have hmodel : load_and_train [r]
      = [⟨r.zone, dowOf r.timestamp, hourOf r.timestamp, listMean [r.load_mw]⟩] := by
    simp [load_and_train, dedupRecords, dedupBy, dedupByAux, sortRecords, sortBy,
      insertBy, train_hist_avg, groupKeys, keyEq, recKey]
  rw [hmodel, hdow]
  unfold predictSlot findExact
  simp [listMean_singleton]

/-- C6 counterexample: after training on one record (Monday hour 14),
`predict_day` for the matching Monday fails outright rather than returning
the record's load for the hour-14 slot. -/
theorem round_trip_predict_day_cex :
    load_and_train [(⟨"PJM", 4 * 24 + 14, 25002 / 5⟩ : TrainingRecord)] ≠ []
    ∧ predict_day (load_and_train [(⟨"PJM", 4 * 24 + 14, 25002 / 5⟩ : TrainingRecord)])
        4 none = none :=
  ⟨by decide, rfl⟩

/-- C6 witness: the single record (zone PJM, Monday hour 14, load 5000.4)
round-trips through training to the slot lookup. -/
theorem round_trip_slot_witness :
    dayDow 4 = dowOf (⟨"PJM", 4 * 24 + 14, 25002 / 5⟩ : TrainingRecord).timestamp
    ∧ predictSlot (load_and_train [(⟨"PJM", 4 * 24 + 14, 25002 / 5⟩ : TrainingRecord)])
        (dayDow 4) (⟨"PJM", 4 * 24 + 14, 25002 / 5⟩ : TrainingRecord).zone
        (hourOf (⟨"PJM", 4 * 24 + 14, 25002 / 5⟩ : TrainingRecord).timestamp)
      = some (pythonRound (⟨"PJM", 4 * 24 + 14, 25002 / 5⟩ : TrainingRecord).load_mw) :=
  ⟨by decide, round_trip_slot ⟨"PJM", 4 * 24 + 14, 25002 / 5⟩ 4 (by decide)⟩

/-- C5: training first deduplicates records by (zone, timestamp); the
resulting model has exactly one row per (zone, day_of_week, hour) key
present among the deduplicated records, whose `load_mean` is the
arithmetic mean of the deduplicated `load_mw` values in that group, and
no row for any other key. -/
theorem train_group_means (rs : List TrainingRecord) (z : String) (d h : Nat) :
    ((load_and_train rs).filter
        (fun row => row.zone == z && row.day_of_week == d && row.hour == h)).map
      (fun row => row.load_mean)
    = if (dedupRecords rs).any (fun r => keyEq (recKey r) (z, d, h)) then
        [listMean (((dedupRecords rs).filter
            (fun r => keyEq (recKey r) (z, d, h))).map (fun r => r.load_mw))]
      else [] := by
  have hkeq : ∀ a b : String × Nat × Nat, keyEq a b = true ↔ a = b := by
    intro a b
    simp [keyEq]
  have hnodup : (groupKeys (sortRecords (dedupRecords rs))).Nodup :=
    (sortBy_perm keyLe _).symm.nodup
      (dedupBy_nodup keyEq hkeq ((sortRecords (dedupRecords rs)).map recKey))
  have hmem : ((z, d, h) ∈ groupKeys (sortRecords (dedupRecords rs)))
      ↔ ((dedupRecords rs).any fun r => decide (recKey r = (z, d, h))) = true := by
    unfold groupKeys
    rw [(sortBy_perm keyLe _).mem_iff]
    constructor
    · intro hin
      rcases List.mem_map.mp (dedupBy_subset keyEq _ _ hin) with ⟨r, hr, hrk⟩
      exact List.any_eq_true.mpr
        ⟨r, (sortBy_perm recLe _).mem_iff.mp hr, by simp [hrk]⟩
    · intro hany
      rcases List.any_eq_true.mp hany with ⟨r, hr, hkr⟩
      have hkr' : recKey r = (z, d, h) := by simpa using hkr
      exact dedupBy_mem keyEq hkeq _ _
        (List.mem_map.mpr ⟨r, (sortBy_perm recLe _).mem_iff.mpr hr, hkr'⟩)
  unfold load_and_train train_hist_avg
  rw [filter_of_map]
  simp only [key_pred_eq, keyEq]
  rw [nodup_filter_key _ hnodup (z, d, h)]
  have hp : (sortRecords (dedupRecords rs)).Perm (dedupRecords rs) :=
    sortBy_perm recLe (dedupRecords rs)
  by_cases hin : (z, d, h) ∈ groupKeys (sortRecords (dedupRecords rs))
  · rw [if_pos hin, if_pos (hmem.mp hin)]
    simp only [List.map_cons, List.map_nil]
    rw [listMean_perm ((hp.filter (fun r => decide (recKey r = (z, d, h)))).map
      (fun r => r.load_mw))]
  · rw [if_neg hin, if_neg (fun hc => hin (hmem.mpr hc))]
    rfl

/-- C9: training is fatal on bad input, producing no model: an empty glob
match, or any matched file lacking a timestamp, zone or load column under
the accepted aliases, makes the `train` path return an error (the model is
only written on the ok branch, after all files were read). -/
theorem train_fatal_on_bad_input (files : List RawFile)
    (h : files = [] ∨ ∃ f ∈ files,
        findCol (f.cols.map strLower) timestampAliases = none
        ∨ findCol (f.cols.map strLower) zoneAliases = none
        ∨ findCol (f.cols.map strLower) loadAliases = none) :
    ∃ e, train_run files = .error e := by
  rcases h with rfl | ⟨f, hf, hcol⟩
  · exact ⟨"No PJM files for pattern", rfl⟩
  · have hbad : ∀ v, read_std_pjm f ≠ .ok v := by
      intro v hv
      unfold read_std_pjm at hv
      cases h1 : findCol (f.cols.map strLower) timestampAliases with
      | none => rw [h1] at hv; cases hv
      | some c1 =>
        rw [h1] at hv
        cases h2 : findCol (f.cols.map strLower) zoneAliases with
        | none => rw [h2] at hv; cases hv
        | some c2 =>
          rw [h2] at hv
          cases h3 : findCol (f.cols.map strLower) loadAliases with
          | none => rw [h3] at hv; cases hv
          | some c3 =>
            rcases hcol with hc | hc | hc
            · rw [h1] at hc; exact Option.noConfusion hc
            · rw [h2] at hc; exact Option.noConfusion hc
            · rw [h3] at hc; exact Option.noConfusion hc
    rcases exMapM_error read_std_pjm files ⟨f, hf, hbad⟩ with ⟨e, he⟩
    have hne : files.isEmpty = false := by
      cases files with
      | nil => simp at hf
      | cons a as => rfl
    have hl : load_pjm_glob files = .error e := by
      unfold load_pjm_glob
      rw [hne]
      simp only [Bool.false_eq_true, if_false]
      rw [he]
    refine ⟨e, ?_⟩
    unfold train_run
    rw [hl]

/-- C9 witness: a file with timestamp and zone columns but no load column
aborts the training run with an error. -/
theorem train_fatal_on_bad_input_witness :
    ((⟨["timestamp", "zone"], []⟩ : RawFile) ∈ [(⟨["timestamp", "zone"], []⟩ : RawFile)]
      ∧ findCol ((⟨["timestamp", "zone"], []⟩ : RawFile).cols.map strLower) loadAliases
          = none)
    ∧ ∃ e, train_run [(⟨["timestamp", "zone"], []⟩ : RawFile)] = .error e :=
  ⟨⟨List.mem_cons_self _ _, rfl⟩,
    train_fatal_on_bad_input [⟨["timestamp", "zone"], []⟩]
      (Or.inr ⟨⟨["timestamp", "zone"], []⟩, List.mem_cons_self _ _,
        Or.inr (Or.inr rfl)⟩)⟩

/-- C10: training normalises zone names (strip whitespace, upper-case)
while `predict_day` compares the requested zone for exact string equality;
hence a requested zone that is not literally a trained zone — e.g. one
differing from a trained zone only in case or surrounding whitespace,
whose normalisation is a trained zone — matches neither the exact nor the
zone-hour tier and is served, if at all, by the global-hour fallback; and
every zone stored in a trained model is the normalisation of some input
record's zone. -/
theorem zone_case_mismatch_fallback (files : List RawFile) (m : List MeanRow)
    (day hr : Nat) (q : String)
    (hm : train_run files = .ok m)
    (hq : ∀ r ∈ m, r.zone ≠ q)
    (hnear : ∃ r ∈ m, r.zone = normZone q) :
    findExact m q (dayDow day) hr = none
    ∧ zoneHourGroup m q hr = []
    ∧ predictSlot m (dayDow day) q hr =
        (if hourGroup m hr ≠ [] then
          some (pythonRound (listMean ((hourGroup m hr).map (fun r => r.load_mean))))
        else none)
    ∧ ∀ row ∈ m, ∃ f ∈ files, ∃ rec ∈ f.recs, row.zone = normZone rec.zone := by
  have h1 : findExact m q (dayDow day) hr = none := by
    unfold findExact
    rw [List.find?_eq_none]
    intro r hrm
    simp [hq r hrm]
  have h2 : zoneHourGroup m q hr = [] := by
    unfold zoneHourGroup
    rw [List.filter_eq_nil_iff]
    intro r hrm
    simp [hq r hrm]
  refine ⟨h1, h2, ?_, train_run_zone_origin files m hm⟩
  unfold predictSlot
  rw [h1, h2, if_neg (fun hc => hc rfl)]

/-- C10 witness: a file whose only record has zone " pjm " trains to a
model whose zone is "PJM"; requesting zone "pjm" (same name, different
case) matches neither the exact nor the zone-hour tier. -/
theorem zone_case_mismatch_fallback_witness :
    (train_run [(⟨["timestamp", "zone", "mw"], [⟨" pjm ", 14, 100⟩]⟩ : RawFile)]
        = .ok [(⟨"PJM", 3, 14, listMean [(100 : ℚ)]⟩ : MeanRow)]
      ∧ (∀ r ∈ [(⟨"PJM", 3, 14, listMean [(100 : ℚ)]⟩ : MeanRow)], r.zone ≠ "pjm")
      ∧ ∃ r ∈ [(⟨"PJM", 3, 14, listMean [(100 : ℚ)]⟩ : MeanRow)], r.zone = normZone "pjm")
    ∧ findExact [(⟨"PJM", 3, 14, listMean [(100 : ℚ)]⟩ : MeanRow)] "pjm" (dayDow 4) 14
        = none
    ∧ zoneHourGroup [(⟨"PJM", 3, 14, listMean [(100 : ℚ)]⟩ : MeanRow)] "pjm" 14 = [] := by
  have hm : train_run [(⟨["timestamp", "zone", "mw"], [⟨" pjm ", 14, 100⟩]⟩ : RawFile)]
      = .ok [(⟨"PJM", 3, 14, listMean [(100 : ℚ)]⟩ : MeanRow)] := rfl
  have hq : ∀ r ∈ [(⟨"PJM", 3, 14, listMean [(100 : ℚ)]⟩ : MeanRow)], r.zone ≠ "pjm" := by
    intro r hrm
    rcases List.mem_singleton.mp hrm with rfl
    decide
  have hnear : ∃ r ∈ [(⟨"PJM", 3, 14, listMean [(100 : ℚ)]⟩ : MeanRow)],
      r.zone = normZone "pjm" :=
    ⟨⟨"PJM", 3, 14, listMean [(100 : ℚ)]⟩, List.mem_singleton.mpr rfl, rfl⟩
  refine ⟨⟨hm, hq, hnear⟩, ?_, ?_⟩
  · exact (zone_case_mismatch_fallback _ _ 4 14 "pjm" hm hq hnear).1
  · exact (zone_case_mismatch_fallback _ _ 4 14 "pjm" hm hq hnear).2.1
